import Mathlib

/-!
Verification development for the PhD-insights dashboard (`src/js/app.js`).

The pipeline of the program is: spreadsheet rows (as read by SheetJS with
blank-cell default "") → `normalizeRow` → filter state (`applyFilters`,
`populateFilterOptions` / `fillSelect`) → aggregation (`aggregateBy`,
`updateSummary`) → chart/view data (`renderCharts`).

JavaScript semantics are shallowly embedded:
* strings are Lean `String`;
* numbers are idealized as exact rationals wrapped in `JsNum`
  (NaN and the two infinities are explicit constructors; IEEE rounding and
  overflow of decimal literals are not modelled);
* plain objects created by object literals are ordered own-property lists
  (`JsObj`); property reads fall back to the `__proto__` accessor of
  `Object.prototype` (reads of its other members, e.g. `toString`, are not
  modelled and all theorems that depend on object values exclude such keys),
  and writes to the key "__proto__" invoke the inherited setter, which
  ignores non-object values, so they never create an own property;
* own-property enumeration (`Object.keys` / `Object.entries`) lists
  array-index keys first in ascending numeric order, then the remaining
  string keys in insertion order, per OrdinaryOwnPropertyKeys.
-/

/-! ## JS primitive string helpers -/

/-- Whitespace recognized by `String.prototype.trim` and by `parseFloat`,
restricted to the ASCII whitespace characters (the Unicode space separators,
NBSP and the BOM, which JS also strips, are not modelled). -/
def isJsWhitespace (c : Char) : Bool :=
  c == ' ' || c == '\t' || c == '\n' || c == '\r' || c == '\x0b' || c == '\x0c'

/-- JS `String.prototype.trim`: strip leading and trailing whitespace. -/
def jsTrim (s : String) : String :=
  ⟨((s.toList.dropWhile isJsWhitespace).reverse.dropWhile isJsWhitespace).reverse⟩

/-- JS `s.replace(/,/g, "")`: remove every comma character (app.js line 52). -/
def stripCommas (s : String) : String :=
  ⟨s.toList.filter (fun c => c != ',')⟩

/-- Numeric value of a list of decimal digit characters. -/
def digitsVal (ds : List Char) : Nat :=
  ds.foldl (fun a c => 10 * a + (c.toNat - 48)) 0

/-! ## JS numbers and parseFloat -/

/-- A JS number: NaN, the two infinities, or a finite value (idealized as an
exact rational; IEEE-754 rounding is not modelled). -/
inductive JsNum where
  | nan : JsNum
  | inf : JsNum
  | negInf : JsNum
  | fin : ℚ → JsNum
deriving DecidableEq

/-- Number.isFinite: true exactly on finite values. -/
def JsNum.isFinite : JsNum → Bool
  | .fin _ => true
  | _ => false

/-- JS `x || 0` on a number: NaN and zero are the falsy numbers, and both are
replaced by `0` (replacing zero by zero is the identity, so the visible
effect is exactly NaN ↦ 0; the infinities are truthy and pass through). -/
def jsNumOrZero : JsNum → JsNum
  | .nan => .fin 0
  | .fin q => if q == 0 then .fin 0 else .fin q
  | x => x

/-- Value of an ExponentPart at the given character list: `e`/`E`, an optional
sign, then digits; anything else (including a bare `e` with no digits, which
parseFloat leaves out of the consumed literal) contributes exponent 0. -/
def parseExponentValue (cs : List Char) : Int :=
  match cs with
  | c :: t =>
    if c == 'e' || c == 'E' then
      match t with
      | '-' :: u => if (u.takeWhile Char.isDigit).isEmpty then 0
                    else -(digitsVal (u.takeWhile Char.isDigit) : Int)
      | '+' :: u => if (u.takeWhile Char.isDigit).isEmpty then 0
                    else (digitsVal (u.takeWhile Char.isDigit) : Int)
      | _ => if (t.takeWhile Char.isDigit).isEmpty then 0
             else (digitsVal (t.takeWhile Char.isDigit) : Int)
    else 0
  | [] => 0

/-- ECMA-262 `parseFloat`: skip leading whitespace, read an optional sign,
then the longest prefix that is a StrDecimalLiteral — the literal `Infinity`,
or decimal digits with an optional fraction and exponent; NaN when no prefix
qualifies. The mathematical value is kept exactly (no rounding to binary64,
and a literal too large for binary64, such as 1e999, stays finite here
although the engine would overflow it to Infinity). -/
def parseFloat (s : String) : JsNum :=
  let cs := s.toList.dropWhile isJsWhitespace
  let neg : Bool := match cs with
    | '-' :: _ => true
    | _ => false
  let cs1 : List Char := match cs with
    | '-' :: t => t
    | '+' :: t => t
    | _ => cs
  match cs1 with
  | 'I' :: 'n' :: 'f' :: 'i' :: 'n' :: 'i' :: 't' :: 'y' :: _ =>
      if neg then .negInf else .inf
  | _ =>
    let ip := cs1.takeWhile Char.isDigit
    let r1 := cs1.dropWhile Char.isDigit
    let fp : List Char := match r1 with
      | '.' :: t => t.takeWhile Char.isDigit
      | _ => []
    let r2 : List Char := match r1 with
      | '.' :: t => t.dropWhile Char.isDigit
      | _ => r1
    if ip.isEmpty && fp.isEmpty then .nan
    else
      let k := fp.length
      let m : Nat := digitsVal ip * 10 ^ k + digitsVal fp
      let mag : ℚ := match parseExponentValue r2 with
        | .ofNat n => mkRat (m * 10 ^ n) (10 ^ k)
        | .negSucc n => mkRat m (10 ^ (k + (n + 1)))
      .fin (if neg then -mag else mag)

/-! ## Raw spreadsheet cells and row normalization (`normalizeRow`) -/

/-- A raw worksheet cell as produced by `XLSX.utils.sheet_to_json`: a string
or a number (numeric cells are restricted to integers here; `String` applied
to an integer of magnitude below 10^21 renders it in plain decimal, which is
what `Int` rendering gives). -/
inductive Cell where
  | cstr : String → Cell
  | cnum : Int → Cell
deriving DecidableEq

/-- JS `String(cell)`. -/
def cellToString : Cell → String
  | .cstr s => s
  | .cnum n => toString n

/-- JS truthiness of a cell value: the empty string and the number 0 are
falsy. -/
def cellTruthy : Cell → Bool
  | .cstr s => s != ""
  | .cnum n => n != 0

/-- A raw row object: ordered own properties, one per column header. The
seven headers `normalizeRow` reads are fixed string literals, none of which
collides with an `Object.prototype` member, so plain association-list lookup
is faithful for them. -/
abbrev RawRow := List (String × Cell)

/-- JS property read `row[key]` on a raw row (`undefined` is `none`). -/
def jsIndex (row : RawRow) (key : String) : Option Cell :=
  (row.find? (fun p => p.1 == key)).map (fun p => p.2)

/-- JS `x || d` on an optional cell: `undefined` and falsy values give the
default. -/
def jsCellOr (c : Option Cell) (d : Cell) : Cell :=
  match c with
  | some v => if cellTruthy v then v else d
  | none => d

/-- The canonical Project record built by `normalizeRow` (app.js lines
46-56). Every field is total by construction. -/
structure Project where
  Domain : String
  ProjectType : String
  Title : String
  FundingAgency : String
  Amount : JsNum
  Status : String
  FacultyName : String
deriving DecidableEq

/-- One string field of `normalizeRow`: `String(row[key] || "").trim()`. -/
def normalizeStringCell (c : Option Cell) : String :=
  jsTrim (cellToString (jsCellOr c (.cstr "")))

/-- Amount field of `normalizeRow` (app.js line 52):
`parseFloat(String(row[key] || "0").toString().replace(/,/g, "")) || 0`. -/
def normalizeAmountCell (c : Option Cell) : JsNum :=
  jsNumOrZero (parseFloat (stripCommas (cellToString (jsCellOr c (.cstr "0")))))

/-- `normalizeRow` (app.js lines 46-56). -/
def normalizeRow (row : RawRow) : Project :=
  { Domain := normalizeStringCell (jsIndex row "Domain"),
    ProjectType := normalizeStringCell (jsIndex row "Project Type"),
    Title := normalizeStringCell (jsIndex row "Title"),
    FundingAgency := normalizeStringCell (jsIndex row "Funding Agency"),
    Amount := normalizeAmountCell (jsIndex row "Amount(in lakhs)"),
    Status := normalizeStringCell (jsIndex row "Status"),
    FacultyName := normalizeStringCell (jsIndex row "Faculty Name") }

/-! ## Filter engine (`applyFilters`) -/

/-- The tri-field filter selection read from the three select elements; the
empty string is the value of the "All" option and means no constraint. -/
structure Selection where
  domain : String
  status : String
  faculty : String
deriving DecidableEq

/-- `applyFilters` (app.js lines 58-69): keep the rows for which every
selected field is unconstrained (empty selection string) or strictly equal
to the matching record field. -/
def applyFilters (sel : Selection) (rows : List Project) : List Project :=
  rows.filter (fun r =>
    (sel.domain == "" || r.Domain == sel.domain) &&
    (sel.status == "" || r.Status == sel.status) &&
    (sel.faculty == "" || r.FacultyName == sel.faculty))

/-! ## JS plain objects used as accumulator dictionaries -/

/-- A value stored in (or read out of) an accumulator object: a number, a
string (produced by the `+` coercion when a non-numeric value is involved),
or the `Object.prototype` object itself (the result of reading the key
"__proto__" on a fresh object literal). -/
inductive JsVal where
  | vnum : ℚ → JsVal
  | vstr : String → JsVal
  | vproto : JsVal
deriving DecidableEq

/-- JS ToString of an accumulator value. Rendering of a finite number is
exact for integers (the only case any theorem below reaches);
`ToPrimitive(Object.prototype)` gives "[object Object]". -/
def jsValToString : JsVal → String
  | .vnum q => if q.den == 1 then toString q.num else toString q
  | .vstr s => s
  | .vproto => "[object Object]"

/-- JS truthiness of an accumulator value. -/
def jsValTruthy : JsVal → Bool
  | .vnum q => q != 0
  | .vstr s => s != ""
  | .vproto => true

/-- Addition of rationals written with `mkRat` so that it evaluates inside
the kernel (the library addition is equal to it, see `ratAdd_eq_add`, but is
marked irreducible). -/
def ratAdd (x y : ℚ) : ℚ :=
  mkRat (x.num * (y.den : Int) + y.num * (x.den : Int)) (x.den * y.den)

/-- JS `+` on accumulator values: numeric addition when both sides are
numbers, string concatenation (after ToString) otherwise. -/
def jsAdd (a b : JsVal) : JsVal :=
  match a, b with
  | .vnum x, .vnum y => .vnum (ratAdd x y)
  | x, y => .vstr (jsValToString x ++ jsValToString y)

/-- An object literal `{}` used as a dictionary: its ordered own
properties. -/
abbrev JsObj := List (String × JsVal)

/-- Own-property read. -/
def jsOwnGet (o : JsObj) (key : String) : Option JsVal :=
  (o.find? (fun p => p.1 == key)).map (fun p => p.2)

/-- JS `o[key] || 0`: the own property if present and truthy; otherwise, for
the key "__proto__" the (truthy) `Object.prototype` object reached through
the prototype chain, else 0. Reads of other inherited `Object.prototype`
members (`toString`, `valueOf`, ...) are not modelled; theorems about object
values exclude those keys. -/
def jsGetOrZero (o : JsObj) (key : String) : JsVal :=
  match jsOwnGet o key with
  | some v => if jsValTruthy v then v else .vnum 0
  | none => if key == "__proto__" then .vproto else .vnum 0

/-- Create or overwrite an own property, keeping the position of an existing
key and appending a new key at the end (JS insertion order). -/
def jsOwnSet (o : JsObj) (key : String) (v : JsVal) : JsObj :=
  match o with
  | [] => [(key, v)]
  | (k, w) :: t => if k == key then (k, v) :: t else (k, w) :: jsOwnSet t key v

/-- JS assignment `o[key] = v` on a plain object: the key "__proto__" hits
the inherited accessor, whose setter ignores a non-object value (the values
assigned here are numbers or strings), so no own property is created;
every other key becomes or updates an own property. -/
def jsSet (o : JsObj) (key : String) (v : JsVal) : JsObj :=
  if key == "__proto__" then o else jsOwnSet o key v

/-- The accumulation statement `o[key] = (o[key] || 0) + v` shared by
`aggregateBy` (app.js line 307) and the status-count reduce (line 139). -/
def objBump (o : JsObj) (key : String) (v : JsVal) : JsObj :=
  jsSet o key (jsAdd (jsGetOrZero o key) v)

/-- JS `s || d` on strings: the empty string is the only falsy string. -/
def jsOrStr (s d : String) : String := if s == "" then d else s

/-! ## Aggregator (`aggregateBy`) and summary (`updateSummary`) -/

/-- The contributed value `valueFn ? valueFn(r) : 1` (app.js line 306).
Value functions are idealized as rational-valued. -/
def aggValue {α : Type} (valueFn : Option (α → ℚ)) (r : α) : ℚ :=
  match valueFn with
  | some f => f r
  | none => 1

/-- `aggregateBy` (app.js lines 302-310): fold the rows into an object,
bumping `keyFn(r) || "Unknown"` by `valueFn(r)` (or by 1 when no value
function is supplied). -/
def aggregateBy {α : Type} (rows : List α) (keyFn : α → String)
    (valueFn : Option (α → ℚ)) : JsObj :=
  rows.foldl
    (fun acc r =>
      objBump acc (jsOrStr (keyFn r) "Unknown") (.vnum (aggValue valueFn r)))
    []

/-- Numeric string value of a decimal-digit string. -/
def strDigitsVal (s : String) : Nat := digitsVal s.toList

/-- An array-index property key per ECMA-262: the canonical decimal form of
an integer n with 0 ≤ n < 2^32 - 1 (no leading zero except "0" itself). -/
def isArrayIndexStr (s : String) : Bool :=
  s != "" && s.toList.all Char.isDigit &&
    (s == "0" || s.toList.head? != some '0') &&
    strDigitsVal s < 4294967295

/-- Own-property enumeration order of `Object.keys` / `Object.entries`
(OrdinaryOwnPropertyKeys): array-index keys first in ascending numeric
order, then the remaining keys in insertion (creation) order. -/
def objKeys (o : JsObj) : List String :=
  let ks := o.map (fun p => p.1)
  (ks.filter isArrayIndexStr).insertionSort
      (fun a b => strDigitsVal a ≤ strDigitsVal b)
    ++ ks.filter (fun k => !isArrayIndexStr k)

/-- `Object.entries` in the same enumeration order. -/
def objEntries (o : JsObj) : List (String × JsVal) :=
  (objKeys o).filterMap (fun k => (jsOwnGet o k).map (fun v => (k, v)))

/-- The domain grouping key of `renderCharts` (app.js lines 196-197):
`(r) => r.Domain || "Unknown"`. -/
def domainKeyFn (r : Project) : String := jsOrStr r.Domain "Unknown"

/-- The status grouping key of `renderCharts` (app.js line 198). -/
def statusKeyFn (r : Project) : String := jsOrStr r.Status "Unknown"

/-- Rational value of a JS number, for the idealized value functions (every
amount a record can carry is finite unless its source cell parses to an
infinity; non-finite amounts fall outside this idealization and are mapped
to 0 here). -/
def jsNumToQ : JsNum → ℚ
  | .fin q => q
  | _ => 0

/-- The funding value function of `renderCharts` (app.js line 197):
`(r) => r.Amount || 0`. -/
def amountValueFn (r : Project) : ℚ := jsNumToQ (jsNumOrZero r.Amount)

/-- `aggregateBy(rows, (r) => r.Domain || "Unknown")` (app.js line 196). -/
def byDomainAgg (rows : List Project) : JsObj :=
  aggregateBy rows domainKeyFn none

/-- `aggregateBy(rows, (r) => r.Domain || "Unknown", (r) => r.Amount || 0)`
(app.js line 197). -/
def fundingByDomainAgg (rows : List Project) : JsObj :=
  aggregateBy rows domainKeyFn (some amountValueFn)

/-- `aggregateBy(rows, (r) => r.Status || "Unknown")` (app.js line 198). -/
def byStatusAgg (rows : List Project) : JsObj :=
  aggregateBy rows statusKeyFn none

/-- `Object.keys(byDomain)` (app.js line 200), the label order every
domain-keyed chart uses. -/
def domainChartLabels (rows : List Project) : List String :=
  objKeys (byDomainAgg rows)

/-- `Object.keys(byStatus)` (app.js line 204). -/
def statusChartLabels (rows : List Project) : List String :=
  objKeys (byStatusAgg rows)

/-- The status-count accumulation of `updateSummary` (app.js lines 137-141):
`acc[r.Status || "Unknown"] = (acc[...] || 0) + 1` over an object literal. -/
def statusCounts (rows : List Project) : JsObj :=
  rows.foldl (fun acc r => objBump acc (jsOrStr r.Status "Unknown") (.vnum 1)) []

/-- The status-breakdown text of `updateSummary` (app.js lines 146-148):
`Object.entries(statusCounts).map(([s, c]) => s + ": " + c).join(" | ")`. -/
def statusBreakdown (rows : List Project) : String :=
  String.intercalate " | "
    ((objEntries (statusCounts rows)).map
      (fun p => p.1 ++ ": " ++ jsValToString p.2))

/-! ## Filter options (`populateFilterOptions` / `fillSelect`) -/

/-- Insertion-order contents of the `Set` built by `populateFilterOptions`
(app.js lines 71-80): first occurrence of each distinct non-empty value. -/
def distinctNonEmpty (l : List String) : List String :=
  l.foldl (fun acc s => if s != "" && !acc.contains s then acc ++ [s] else acc) []

/-- Collation key modelling `String.prototype.localeCompare` under the
default locale (the Unicode root collation), restricted to ASCII letters and
digits: strings compare first by case-folded character codes (primary
level), and only when those agree by case (tertiary level, lowercase before
uppercase). Following the UCA sort-key construction, the key is the primary
weights, a 0 separator, then the tertiary weights, compared
lexicographically. -/
def localeKey (s : String) : List Nat :=
  s.toList.map (fun c => c.toLower.toNat + 1)
    ++ 0 :: s.toList.map (fun c => if c.isUpper then 2 else 1)

/-- Comparison `a.localeCompare(b) <= 0` of the modelled default
collation. -/
def localeLe (a b : String) : Prop := localeKey a ≤ localeKey b

instance : DecidableRel localeLe := fun a b =>
  inferInstanceAs (Decidable (localeKey a ≤ localeKey b))

instance : IsTotal String localeLe := ⟨fun a b => le_total (localeKey a) (localeKey b)⟩

instance : IsTrans String localeLe := ⟨fun _ _ _ hab hbc => le_trans hab hbc⟩

/-- The sorted option values of `fillSelect` (app.js lines 96-97):
`Array.from(values).sort((a, b) => a.localeCompare(b))`. The engine sort is
stable and the comparator is a total preorder, so the sorted list is
uniquely determined; a stable insertion sort reproduces it. -/
def sortedOptionValues (values : List String) : List String :=
  values.insertionSort localeLe

/-- The full option value list a select ends up with after `fillSelect`
(app.js lines 87-103): the "All" option (value "") first, then the sorted
values. -/
def fillSelectValues (values : List String) : List String :=
  "" :: sortedOptionValues values

/-- The value the select element holds after `fillSelect` (app.js lines
105-108): the previous selection is restored only when it is non-empty and
still among the new values; otherwise no option carries selectedness and the
select falls back to its first option, the "All" option with value ""
(HTML default selection of a non-multiple select). -/
def fillSelectNewValue (current : String) (values : List String) : String :=
  if current != "" && values.contains current then current else ""

/-- The domain values handed to `fillSelect` (app.js lines 76-82). -/
def domainValues (rows : List Project) : List String :=
  distinctNonEmpty (rows.map Project.Domain)

/-- The status values handed to `fillSelect` (app.js lines 76-83). -/
def statusValues (rows : List Project) : List String :=
  distinctNonEmpty (rows.map Project.Status)

/-- The faculty values handed to `fillSelect` (app.js lines 76-84). -/
def facultyValues (rows : List Project) : List String :=
  distinctNonEmpty (rows.map Project.FacultyName)

/-- Option list of the domain select after `populateFilterOptions`. -/
def domainOptionList (rows : List Project) : List String :=
  fillSelectValues (domainValues rows)

/-- Option list of the status select after `populateFilterOptions`. -/
def statusOptionList (rows : List Project) : List String :=
  fillSelectValues (statusValues rows)

/-- Option list of the faculty select after `populateFilterOptions`. -/
def facultyOptionList (rows : List Project) : List String :=
  fillSelectValues (facultyValues rows)

/-! ## File upload (`handleFileUpload`) -/

/-- The one genuine failure of a load: `XLSX.read` (or `sheet_to_json`)
throwing on content that is not a valid spreadsheet. -/
structure LoadFailure where
  message : String
deriving DecidableEq

/-- The mutable state `handleFileUpload` and the render pipeline touch: the
record set `allRows` and the derived view (filter option lists and the
filtered rows driving summary, table and charts). -/
structure AppState where
  allRows : List Project
  domainOptions : List String
  statusOptions : List String
  facultyOptions : List String
  viewRows : List Project
deriving DecidableEq

/-- `handleFileUpload` (app.js lines 27-44) after the file bytes arrive:
parsing happens first (`XLSX.read` on line 34, `sheet_to_json` on line 37,
modelled by the `parsed` argument), and a parse throw propagates out of the
onload callback before `allRows` is assigned on line 39, so the failing
branch returns the previous state untouched together with the signalled
failure; on success the state is rebuilt from the normalized rows
(`populateFilterOptions` on line 40, `render` on line 41). -/
def handleFileUpload (st : AppState) (sel : Selection)
    (parsed : Except LoadFailure (List RawRow)) : AppState × Option LoadFailure :=
  match parsed with
  | .error e => (st, some e)
  | .ok json =>
      let rows := json.map normalizeRow
      ({ allRows := rows,
         domainOptions := domainOptionList rows,
         statusOptions := statusOptionList rows,
         facultyOptions := facultyOptionList rows,
         viewRows := applyFilters sel rows }, none)

/-! ## Spec-side descriptions (for comparison with the code) -/

/-- Key substitution performed inside `aggregateBy`: an empty key becomes
"Unknown". -/
def canonKey (s : String) : String := jsOrStr s "Unknown"

/-- First-occurrence order of the (canonicalized) grouping keys of a record
list, as the specification words the enumeration order of an aggregation
result. -/
def firstOccurrenceKeys {α : Type} (rows : List α) (keyFn : α → String) :
    List String :=
  rows.foldl
    (fun ks r =>
      if ks.contains (canonKey (keyFn r)) then ks else ks ++ [canonKey (keyFn r)])
    []

/-- Code points of a string (for BMP strings, identical to the UTF-16 code
units JS compares). -/
def ordKey (s : String) : List Nat := s.toList.map Char.toNat

/-- Case-sensitive ordinal (code-unit) string order, as the specification
words the sort order of the filter options. -/
def ordLe (a b : String) : Prop := ordKey a ≤ ordKey b

instance : DecidableRel ordLe := fun a b =>
  inferInstanceAs (Decidable (ordKey a ≤ ordKey b))

/-- Numeric content of an accumulator value (a non-numeric value, reachable
only through keys naming `Object.prototype` members, counts 0). -/
def jsValNum : JsVal → ℚ
  | .vnum q => q
  | _ => 0

/-- Sum of the values of an accumulator object. -/
def objValuesSum (o : JsObj) : ℚ :=
  (o.map (fun p => jsValNum p.2)).sum

/-- The own property names of `Object.prototype` (including the Annex B
accessors). A grouping key equal to one of these hits an inherited property
inside the accumulation statement and corrupts or drops the bucket. -/
def objectProtoNames : List String :=
  ["constructor", "hasOwnProperty", "isPrototypeOf", "propertyIsEnumerable",
   "toLocaleString", "toString", "valueOf", "__defineGetter__",
   "__defineSetter__", "__lookupGetter__", "__lookupSetter__", "__proto__"]

/-- A concrete record with the given domain, status and faculty (used by the
closed example theorems). -/
def mkProj (dom status fac : String) : Project :=
  ⟨dom, "", "", "", .fin 0, status, fac⟩

/-- Replace an empty domain by the literal string "Unknown", leaving every
other field alone. -/
def domainEmptyToUnknown (r : Project) : Project :=
  if r.Domain = "" then
    ⟨"Unknown", r.ProjectType, r.Title, r.FundingAgency, r.Amount, r.Status,
      r.FacultyName⟩
  else r

/-- Replace the domain "Unknown" by the empty string, leaving every other
field alone. -/
def domainUnknownToEmpty (r : Project) : Project :=
  if r.Domain = "Unknown" then
    ⟨"", r.ProjectType, r.Title, r.FundingAgency, r.Amount, r.Status,
      r.FacultyName⟩
  else r

/-- Replace an empty status by the literal string "Unknown", leaving every
other field alone. -/
def statusEmptyToUnknown (r : Project) : Project :=
  if r.Status = "" then
    ⟨r.Domain, r.ProjectType, r.Title, r.FundingAgency, r.Amount, "Unknown",
      r.FacultyName⟩
  else r

/-- Replace the status "Unknown" by the empty string, leaving every other
field alone. -/
def statusUnknownToEmpty (r : Project) : Project :=
  if r.Status = "Unknown" then
    ⟨r.Domain, r.ProjectType, r.Title, r.FundingAgency, r.Amount, "",
      r.FacultyName⟩
  else r

/-- The six string-valued columns with the record field each one feeds
(`normalizeRow`, app.js lines 48-54; the seventh column is the numeric
amount). -/
def stringColumns : List (String × (Project → String)) :=
  [("Domain", Project.Domain), ("Project Type", Project.ProjectType),
   ("Title", Project.Title), ("Funding Agency", Project.FundingAgency),
   ("Status", Project.Status), ("Faculty Name", Project.FacultyName)]

/-! ## Helper lemmas -/

theorem ratAdd_eq_add (x y : ℚ) : ratAdd x y = x + y := by
  have hx : (x.den : ℚ) ≠ 0 := Nat.cast_ne_zero.mpr x.den_nz
  have hy : (y.den : ℚ) ≠ 0 := Nat.cast_ne_zero.mpr y.den_nz
  have e1 : (x.num : ℚ) = x * x.den := (div_eq_iff hx).mp (Rat.num_div_den x)
  have e2 : (y.num : ℚ) = y * y.den := (div_eq_iff hy).mp (Rat.num_div_den y)
  rw [ratAdd, Rat.mkRat_eq_div]
  push_cast
  rw [div_eq_iff (mul_ne_zero hx hy)]
  linear_combination (y.den : ℚ) * e1 + (x.den : ℚ) * e2

theorem jsNumOrZero_ne_nan (j : JsNum) : jsNumOrZero j ≠ JsNum.nan := by
  cases j with
  | nan => simp [jsNumOrZero]
  | inf => simp [jsNumOrZero]
  | negInf => simp [jsNumOrZero]
  | fin q =>
    simp only [jsNumOrZero]
    split <;> simp

/-! ## C1 -/

/-- C1: for every selection and record list, `applyFilters` returns an
ordered subsequence of the input, and a record occurs in the output (with
its full multiplicity) exactly when, for each of the three fields, the
selection is empty or the record field equals it by case-sensitive exact
string equality, all three conditions holding at once. -/
theorem applyFilters_exact_conjunction (sel : Selection) (rows : List Project) :
    (applyFilters sel rows).Sublist rows ∧
    ∀ r : Project, (applyFilters sel rows).count r =
      if (sel.domain = "" ∨ r.Domain = sel.domain) ∧
          (sel.status = "" ∨ r.Status = sel.status) ∧
          (sel.faculty = "" ∨ r.FacultyName = sel.faculty)
        then rows.count r else 0 := by
  constructor
  · exact List.filter_sublist rows
  · intro r
    by_cases h : (sel.domain = "" ∨ r.Domain = sel.domain) ∧
        (sel.status = "" ∨ r.Status = sel.status) ∧
        (sel.faculty = "" ∨ r.FacultyName = sel.faculty)
    · rw [if_pos h]
      exact List.count_filter (by simpa [and_assoc] using h)
    · rw [if_neg h]
      rw [List.count_eq_zero]
      intro hmem
      exact h (by simpa [and_assoc] using (List.mem_filter.mp hmem).2)

/-! ## C2 -/

/-- C2 counterexample: a raw amount cell holding the text "Infinity" parses
to the infinity value, which `|| 0` keeps (it is truthy), so the normalized
amount is not a finite number, against the claim that the amount of every
normalized record is finite. -/
theorem normalizeRow_amount_infinity_not_finite :
    (normalizeRow [("Amount(in lakhs)", Cell.cstr "Infinity")]).Amount = JsNum.inf ∧
    JsNum.isFinite (normalizeRow [("Amount(in lakhs)", Cell.cstr "Infinity")]).Amount
      = false := by
  decide

/-- C2 amended: the normalized amount is the comma-stripped string form of
the raw cell passed through parseFloat, with the result replaced by 0 when
the parse yields NaN, so the amount is never NaN and is finite unless the
cell denotes an infinity; "1,234.5" normalizes to 1234.5 and "abc" to 0,
and normalization never fails. -/
theorem normalizeRow_amount_nan_defaults_zero (row : RawRow) :
    (normalizeRow row).Amount ≠ JsNum.nan ∧
    (parseFloat (stripCommas (cellToString
        (jsCellOr (jsIndex row "Amount(in lakhs)") (.cstr "0")))) = JsNum.nan →
      (normalizeRow row).Amount = JsNum.fin 0) ∧
    ((normalizeRow row).Amount.isFinite = true ∨
      (normalizeRow row).Amount = JsNum.inf ∨
      (normalizeRow row).Amount = JsNum.negInf) ∧
    (normalizeRow [("Amount(in lakhs)", Cell.cstr "1,234.5")]).Amount
      = JsNum.fin (2469 / 2) ∧
    (normalizeRow [("Amount(in lakhs)", Cell.cstr "abc")]).Amount = JsNum.fin 0 := by
  have hA : (normalizeRow row).Amount =
      jsNumOrZero (parseFloat (stripCommas (cellToString
        (jsCellOr (jsIndex row "Amount(in lakhs)") (.cstr "0"))))) := rfl
  refine ⟨?_, ?_, ?_, ?_, ?_⟩
  · rw [hA]; exact jsNumOrZero_ne_nan _
  · intro h; rw [hA, h]; rfl
  · rw [hA]
    cases parseFloat (stripCommas (cellToString
        (jsCellOr (jsIndex row "Amount(in lakhs)") (.cstr "0")))) with
    | nan => simp [jsNumOrZero, JsNum.isFinite]
    | inf => simp [jsNumOrZero, JsNum.isFinite]
    | negInf => simp [jsNumOrZero, JsNum.isFinite]
    | fin q =>
      simp only [jsNumOrZero]
      split <;> simp [JsNum.isFinite]
  · have h1 : (normalizeRow [("Amount(in lakhs)", Cell.cstr "1,234.5")]).Amount
        = JsNum.fin (mkRat 2469 2) := by decide
    have h2 : mkRat 2469 2 = (2469 : ℚ) / 2 := by
      rw [Rat.mkRat_eq_div]; norm_num
    rw [h1, h2]
  · decide

/-! ## C9 -/

/-- C9: when parsing the uploaded content fails, `handleFileUpload` leaves
the previous record set and every derived piece of state untouched and
signals the failure to the caller. -/
theorem handleFileUpload_failure_no_mutation (st : AppState) (sel : Selection)
    (e : LoadFailure) :
    handleFileUpload st sel (Except.error e) = (st, some e) := rfl

/-! ## Aggregation helper lemmas -/

theorem jsOrStr_ne_of_ne (s d : String) (hd : d ≠ "") : jsOrStr s d ≠ "" := by
  by_cases h : s = "" <;> simp [jsOrStr, h, hd]

theorem jsOwnGet_cons (a : String) (w : JsVal) (t : JsObj) (k : String) :
    jsOwnGet ((a, w) :: t) k = if a = k then some w else jsOwnGet t k := by
  by_cases h : a = k
  · simp [jsOwnGet, List.find?_cons_of_pos, h]
  · rw [if_neg h]
    unfold jsOwnGet
    rw [List.find?_cons_of_neg]
    simpa using h

theorem jsOwnSet_cons_pos (a : String) (w : JsVal) (t : JsObj) (v : JsVal) :
    jsOwnSet ((a, w) :: t) a v = (a, v) :: t := by
  simp [jsOwnSet]

theorem jsOwnSet_cons_neg (a : String) (w : JsVal) (t : JsObj) (k : String)
    (v : JsVal) (h : a ≠ k) : jsOwnSet ((a, w) :: t) k v = (a, w) :: jsOwnSet t k v := by
  simp [jsOwnSet, h]

theorem jsOwnSet_keys (o : JsObj) (k : String) (v : JsVal) :
    (jsOwnSet o k v).map (fun p => p.1) =
      if (o.map (fun p => p.1)).contains k then o.map (fun p => p.1)
      else o.map (fun p => p.1) ++ [k] := by
  induction o with
  | nil => simp [jsOwnSet]
  | cons a t ih =>
    obtain ⟨ak, aw⟩ := a
    by_cases h : ak = k
    · subst h
      rw [jsOwnSet_cons_pos]
      simp [List.contains_cons]
    · rw [jsOwnSet_cons_neg _ _ _ _ _ h, List.map_cons, ih, List.map_cons]
      have hck : ((ak :: t.map (fun p => p.1)).contains k)
          = (t.map (fun p => p.1)).contains k := by
        simp [List.contains_cons, Ne.symm h]
      rw [hck]
      split <;> simp

theorem objBump_proto (o : JsObj) (v : JsVal) : objBump o "__proto__" v = o := by
  simp [objBump, jsSet]

theorem objBump_keys (o : JsObj) (k : String) (v : JsVal) (hk : k ≠ "__proto__") :
    (objBump o k v).map (fun p => p.1) =
      if (o.map (fun p => p.1)).contains k then o.map (fun p => p.1)
      else o.map (fun p => p.1) ++ [k] := by
  unfold objBump jsSet
  rw [if_neg (by simpa using hk)]
  exact jsOwnSet_keys o k _

theorem objBump_keys_subset (o : JsObj) (k : String) (v : JsVal) (x : String)
    (hx : x ∈ (objBump o k v).map (fun p => p.1)) :
    x ∈ o.map (fun p => p.1) ∨ x = k := by
  by_cases hk : k = "__proto__"
  · subst hk; rw [objBump_proto] at hx; exact Or.inl hx
  · rw [objBump_keys o k v hk] at hx
    by_cases hc : (o.map (fun p => p.1)).contains k = true
    · rw [if_pos hc] at hx; exact Or.inl hx
    · rw [if_neg hc] at hx
      rcases List.mem_append.mp hx with h | h
      · exact Or.inl h
      · exact Or.inr (by simpa using h)

theorem objValuesSum_cons (p : String × JsVal) (t : JsObj) :
    objValuesSum (p :: t) = jsValNum p.2 + objValuesSum t := by
  simp [objValuesSum]

theorem jsGetOrZero_nil (k : String) (hk : k ≠ "__proto__") :
    jsGetOrZero [] k = JsVal.vnum 0 := by
  unfold jsGetOrZero jsOwnGet
  simp [hk]

theorem jsGetOrZero_cons_self (k : String) (x : ℚ) (t : JsObj) :
    jsGetOrZero ((k, JsVal.vnum x) :: t) k = JsVal.vnum x := by
  unfold jsGetOrZero
  rw [jsOwnGet_cons, if_pos rfl]
  by_cases h : x = 0
  · subst h; simp [jsValTruthy]
  · simp [jsValTruthy, h]

theorem jsGetOrZero_cons_ne (a : String) (w : JsVal) (t : JsObj) (k : String)
    (h : a ≠ k) : jsGetOrZero ((a, w) :: t) k = jsGetOrZero t k := by
  unfold jsGetOrZero
  rw [jsOwnGet_cons, if_neg h]

theorem objBump_cons_ne (a : String) (w : JsVal) (t : JsObj) (k : String)
    (v : JsVal) (h : a ≠ k) (hk : k ≠ "__proto__") :
    objBump ((a, w) :: t) k v = (a, w) :: objBump t k v := by
  unfold objBump jsSet
  rw [if_neg (by simpa using hk), if_neg (by simpa using hk),
    jsGetOrZero_cons_ne a w t k h, jsOwnSet_cons_neg a w t k _ h]

theorem objBump_cons_self (k : String) (x : ℚ) (t : JsObj) (q : ℚ)
    (hk : k ≠ "__proto__") :
    objBump ((k, JsVal.vnum x) :: t) k (.vnum q)
      = (k, JsVal.vnum (ratAdd x q)) :: t := by
  unfold objBump jsSet
  rw [if_neg (by simpa using hk), jsGetOrZero_cons_self]
  exact jsOwnSet_cons_pos k (JsVal.vnum x) t _

theorem objBump_nil_sum (k : String) (q : ℚ) (hk : k ≠ "__proto__") :
    objBump [] k (.vnum q) = [(k, JsVal.vnum (ratAdd 0 q))] := by
  unfold objBump jsSet
  rw [if_neg (by simpa using hk), jsGetOrZero_nil k hk]
  rfl

theorem objBump_sum (o : JsObj) (k : String) (q : ℚ) (hk : k ≠ "__proto__")
    (hv : ∀ p ∈ o, ∃ x, p.2 = JsVal.vnum x) :
    objValuesSum (objBump o k (.vnum q)) = objValuesSum o + q := by
  induction o with
  | nil =>
    rw [objBump_nil_sum k q hk, objValuesSum_cons]
    simp [objValuesSum, jsValNum, ratAdd_eq_add]
  | cons p t ih =>
    obtain ⟨a, w⟩ := p
    by_cases h : a = k
    · subst h
      obtain ⟨x, hx⟩ := hv (a, w) (List.mem_cons_self _ _)
      simp only at hx
      subst hx
      rw [objBump_cons_self a x t q hk, objValuesSum_cons, objValuesSum_cons]
      simp only [jsValNum]
      rw [ratAdd_eq_add]
      ring
    · rw [objBump_cons_ne a w t k _ h hk, objValuesSum_cons, objValuesSum_cons,
        ih (fun p hp => hv p (List.mem_cons_of_mem _ hp))]
      ring

theorem jsOwnSet_mem (o : JsObj) (k : String) (v : JsVal) (p : String × JsVal)
    (hp : p ∈ jsOwnSet o k v) : p ∈ o ∨ p = (k, v) := by
  induction o with
  | nil =>
    simp only [jsOwnSet] at hp
    exact Or.inr (by simpa using hp)
  | cons a t ih =>
    obtain ⟨ak, aw⟩ := a
    by_cases h : ak = k
    · subst h
      rw [jsOwnSet_cons_pos] at hp
      rcases List.mem_cons.mp hp with h2 | h2
      · exact Or.inr h2
      · exact Or.inl (List.mem_cons_of_mem _ h2)
    · rw [jsOwnSet_cons_neg _ _ _ _ _ h] at hp
      rcases List.mem_cons.mp hp with h2 | h2
      · exact Or.inl (h2 ▸ List.mem_cons_self _ _)
      · rcases ih h2 with h3 | h3
        · exact Or.inl (List.mem_cons_of_mem _ h3)
        · exact Or.inr h3

theorem jsGetOrZero_vnum (o : JsObj) (k : String) (hk : k ≠ "__proto__")
    (hv : ∀ p ∈ o, ∃ x, p.2 = JsVal.vnum x) :
    ∃ x, jsGetOrZero o k = JsVal.vnum x := by
  unfold jsGetOrZero
  cases hg : jsOwnGet o k with
  | none =>
    refine ⟨0, ?_⟩
    simp [hk]
  | some v =>
    have hmem : ∃ p ∈ o, p.2 = v := by
      unfold jsOwnGet at hg
      cases hf : o.find? (fun p => p.1 == k) with
      | none => rw [hf] at hg; simp at hg
      | some p =>
        rw [hf] at hg
        simp at hg
        exact ⟨p, List.mem_of_find?_eq_some hf, hg⟩
    obtain ⟨p, hpo, hpv⟩ := hmem
    obtain ⟨x, hx⟩ := hv p hpo
    rw [hpv] at hx
    subst hx
    by_cases ht : jsValTruthy (JsVal.vnum x) = true
    · exact ⟨x, by simp [ht]⟩
    · exact ⟨0, by simp [ht]⟩

theorem objBump_preserves_vnum (o : JsObj) (k : String) (q : ℚ)
    (hk : k ≠ "__proto__") (hv : ∀ p ∈ o, ∃ x, p.2 = JsVal.vnum x) :
    ∀ p ∈ objBump o k (.vnum q), ∃ x, p.2 = JsVal.vnum x := by
  intro p hp
  unfold objBump jsSet at hp
  rw [if_neg (by simpa using hk)] at hp
  rcases jsOwnSet_mem _ _ _ _ hp with h | h
  · exact hv p h
  · obtain ⟨x, hx⟩ := jsGetOrZero_vnum o k hk hv
    refine ⟨ratAdd x q, ?_⟩
    rw [h]
    simp only
    rw [hx]
    rfl

theorem aggregate_foldl_sum {α : Type} (keyFn : α → String) (val : α → ℚ) :
    ∀ (rows : List α) (acc : JsObj),
      (∀ r ∈ rows, jsOrStr (keyFn r) "Unknown" ∉ objectProtoNames) →
      (∀ p ∈ acc, ∃ x, p.2 = JsVal.vnum x) →
      objValuesSum (List.foldl
          (fun acc r => objBump acc (jsOrStr (keyFn r) "Unknown") (.vnum (val r)))
          acc rows)
        = objValuesSum acc + (rows.map val).sum := by
  intro rows
  induction rows with
  | nil => intro acc _ _; simp
  | cons r t ih =>
    intro acc h hv
    have hk : jsOrStr (keyFn r) "Unknown" ≠ "__proto__" := by
      intro he
      apply h r (List.mem_cons_self _ _)
      rw [he]
      decide
    rw [List.foldl_cons,
      ih _ (fun x hx => h x (List.mem_cons_of_mem _ hx))
        (objBump_preserves_vnum _ _ _ hk hv),
      objBump_sum _ _ _ hk hv, List.map_cons, List.sum_cons]
    ring

theorem sum_map_one {α : Type} (l : List α) :
    (l.map (fun _ => (1 : ℚ))).sum = l.length := by
  induction l with
  | nil => simp
  | cons a t ih => simp [ih, add_comm]

theorem aggregate_foldl_keys {α : Type} (keyFn : α → String) (val : α → ℚ) :
    ∀ (rows : List α) (acc : JsObj),
      (∀ r ∈ rows, jsOrStr (keyFn r) "Unknown" ≠ "__proto__") →
      (List.foldl
          (fun acc r => objBump acc (jsOrStr (keyFn r) "Unknown") (.vnum (val r)))
          acc rows).map (fun p => p.1)
        = List.foldl
            (fun ks r => if ks.contains (canonKey (keyFn r)) then ks
              else ks ++ [canonKey (keyFn r)])
            (acc.map (fun p => p.1)) rows := by
  intro rows
  induction rows with
  | nil => intro acc _; rfl
  | cons r t ih =>
    intro acc h
    rw [List.foldl_cons, List.foldl_cons,
      ih _ (fun x hx => h x (List.mem_cons_of_mem _ hx))]
    congr 1
    rw [objBump_keys _ _ _ (h r (List.mem_cons_self _ _))]
    rfl

theorem aggregate_foldl_keys_mem {α : Type} (keyFn : α → String) (val : α → ℚ) :
    ∀ (rows : List α) (acc : JsObj) (x : String),
      x ∈ (List.foldl
          (fun acc r => objBump acc (jsOrStr (keyFn r) "Unknown") (.vnum (val r)))
          acc rows).map (fun p => p.1) →
      x ∈ acc.map (fun p => p.1) ∨ ∃ r ∈ rows, x = jsOrStr (keyFn r) "Unknown" := by
  intro rows
  induction rows with
  | nil => intro acc x hx; exact Or.inl hx
  | cons r t ih =>
    intro acc x hx
    rw [List.foldl_cons] at hx
    rcases ih _ x hx with h | ⟨r2, hr2, he⟩
    · rcases objBump_keys_subset _ _ _ _ h with h2 | h2
      · exact Or.inl h2
      · exact Or.inr ⟨r, List.mem_cons_self _ _, h2⟩
    · exact Or.inr ⟨r2, List.mem_cons_of_mem _ hr2, he⟩

/-! ## C5 -/

/-- C5: every record whose computed grouping key is the empty string
accumulates under the literal key "Unknown" (aggregation with a key function
and with its empty-to-Unknown canonicalization coincide), and no aggregation
result ever has the empty string among its keys. -/
theorem aggregateBy_unknown_bucketing (α : Type) (rows : List α)
    (keyFn : α → String) (valueFn : Option (α → ℚ)) :
    "" ∉ (aggregateBy rows keyFn valueFn).map (fun p => p.1) ∧
    aggregateBy rows keyFn valueFn
      = aggregateBy rows (fun r => if keyFn r = "" then "Unknown" else keyFn r)
          valueFn := by
  constructor
  · intro hmem
    rcases aggregate_foldl_keys_mem keyFn (aggValue valueFn) rows [] "" hmem with
      h | ⟨r, _, he⟩
    · simp at h
    · exact jsOrStr_ne_of_ne (keyFn r) "Unknown" (by decide) he.symm
  · unfold aggregateBy
    apply List.foldl_ext
    intro acc r _
    have hkey : jsOrStr (if keyFn r = "" then "Unknown" else keyFn r) "Unknown"
        = jsOrStr (keyFn r) "Unknown" := by
      by_cases h : keyFn r = "" <;> simp [jsOrStr, h]
    rw [hkey]

/-! ## C3 -/

/-- C3 counterexample: a record whose domain is the literal string
"__proto__" is grouped under the key "__proto__", and the assignment
`acc[key] = (acc[key] || 0) + value` then hits the inherited `__proto__`
setter of the object literal, which silently drops the non-object value: the
aggregation result is the empty object and the sum of its values is 0, not
the record count 1. -/
theorem aggregateBy_proto_key_not_additive :
    objValuesSum (aggregateBy [mkProj "__proto__" "" ""] domainKeyFn
        (none : Option (Project → ℚ)))
      ≠ (([mkProj "__proto__" "" ""] : List Project).length : ℚ) := by
  decide

/-- C3 amended: provided no computed grouping key collides with an own
property name of `Object.prototype` (such as "__proto__" or "toString"),
the sum of the values of `aggregateBy(records, k, v)` equals the sum of
`v(r)` over the records, and equals the record count when no value function
is supplied. -/
theorem aggregateBy_additivity (α : Type) (rows : List α) (keyFn : α → String)
    (valueFn : Option (α → ℚ))
    (h : ∀ r ∈ rows, jsOrStr (keyFn r) "Unknown" ∉ objectProtoNames) :
    objValuesSum (aggregateBy rows keyFn valueFn)
      = (rows.map (aggValue valueFn)).sum ∧
    (valueFn = none →
      objValuesSum (aggregateBy rows keyFn valueFn) = (rows.length : ℚ)) := by
  have hmain : objValuesSum (aggregateBy rows keyFn valueFn)
      = (rows.map (aggValue valueFn)).sum := by
    have hs := aggregate_foldl_sum keyFn (aggValue valueFn) rows [] h
      (by intro p hp; simp at hp)
    simpa [aggregateBy, objValuesSum] using hs
  refine ⟨hmain, ?_⟩
  intro hnone
  subst hnone
  rw [hmain, show aggValue (none : Option (α → ℚ)) = fun _ => (1 : ℚ) from rfl]
  exact sum_map_one rows

theorem aggregateBy_additivity_witness :
    objValuesSum (aggregateBy ["Bio", "AI", "Bio"] (fun s => s)
        (none : Option (String → ℚ)))
      = ((["Bio", "AI", "Bio"] : List String).length : ℚ) :=
  (aggregateBy_additivity String ["Bio", "AI", "Bio"] (fun s => s) none
    (by decide)).2 rfl

/-! ## C4 -/

theorem objKeys_no_index (o : JsObj)
    (h : ∀ k ∈ o.map (fun p => p.1), isArrayIndexStr k = false) :
    objKeys o = o.map (fun p => p.1) := by
  unfold objKeys
  have h1 : (o.map (fun p => p.1)).filter isArrayIndexStr = [] :=
    List.filter_eq_nil_iff.mpr (by intro a ha; simp [h a ha])
  have h2 : (o.map (fun p => p.1)).filter (fun k => !isArrayIndexStr k)
      = o.map (fun p => p.1) :=
    List.filter_eq_self.mpr (by intro a ha; simp [h a ha])
  simp [h1, h2]

/-- C4 counterexample: with domains "10" then "2" (both array-index strings),
the chart label order produced by `Object.keys` is the ascending numeric
order ["2", "10"], not the first-encountered order ["10", "2"]. -/
theorem chartLabels_not_first_occurrence :
    domainChartLabels [mkProj "10" "" "", mkProj "2" "" ""] = ["2", "10"] ∧
    firstOccurrenceKeys [mkProj "10" "" "", mkProj "2" "" ""] domainKeyFn
      = ["10", "2"] ∧
    domainChartLabels [mkProj "10" "" "", mkProj "2" "" ""]
      ≠ firstOccurrenceKeys [mkProj "10" "" "", mkProj "2" "" ""] domainKeyFn := by
  refine ⟨by decide, by decide, by decide⟩

/-- C4 amended: the key enumeration order of an aggregation result lists
array-index keys first in ascending numeric order and the remaining keys in
first-encountered order; in particular, when no computed key is an
array-index string (and none is "__proto__", whose bucket is dropped), the
enumeration order is exactly the order in which each distinct key was first
encountered while scanning the records in input order. -/
theorem aggregateBy_keys_first_occurrence (α : Type) (rows : List α)
    (keyFn : α → String) (valueFn : Option (α → ℚ))
    (hp : ∀ r ∈ rows, jsOrStr (keyFn r) "Unknown" ≠ "__proto__")
    (hi : ∀ r ∈ rows, isArrayIndexStr (jsOrStr (keyFn r) "Unknown") = false) :
    objKeys (aggregateBy rows keyFn valueFn) = firstOccurrenceKeys rows keyFn := by
  have hkeys : (aggregateBy rows keyFn valueFn).map (fun p => p.1)
      = firstOccurrenceKeys rows keyFn := by
    have := aggregate_foldl_keys keyFn (aggValue valueFn) rows [] hp
    simpa [aggregateBy, firstOccurrenceKeys] using this
  rw [objKeys_no_index _ ?_, hkeys]
  intro k hk
  rcases aggregate_foldl_keys_mem keyFn (aggValue valueFn) rows [] k hk with
    h | ⟨r, hr, he⟩
  · simp at h
  · rw [he]
    exact hi r hr

theorem aggregateBy_keys_first_occurrence_witness :
    objKeys (aggregateBy ["Bio", "AI", "Bio"] (fun s => s)
        (none : Option (String → ℚ)))
      = ["Bio", "AI"] := by
  rw [aggregateBy_keys_first_occurrence String ["Bio", "AI", "Bio"] (fun s => s)
    none (by decide) (by decide)]
  decide

/-! ## C10 -/

theorem aggregateBy_map_invariant {α : Type} (f : α → α) (keyFn : α → String)
    (valueFn : Option (α → ℚ)) (rows : List α)
    (hk : ∀ r ∈ rows, keyFn (f r) = keyFn r)
    (hv : ∀ r ∈ rows, aggValue valueFn (f r) = aggValue valueFn r) :
    aggregateBy (rows.map f) keyFn valueFn = aggregateBy rows keyFn valueFn := by
  unfold aggregateBy
  rw [List.foldl_map]
  apply List.foldl_ext
  intro acc r hr
  rw [hk r hr, hv r hr]

theorem domainKeyFn_emptyToUnknown (r : Project) :
    domainKeyFn (domainEmptyToUnknown r) = domainKeyFn r := by
  by_cases h : r.Domain = "" <;> simp [domainKeyFn, domainEmptyToUnknown, jsOrStr, h]

theorem domainKeyFn_unknownToEmpty (r : Project) :
    domainKeyFn (domainUnknownToEmpty r) = domainKeyFn r := by
  by_cases h : r.Domain = "Unknown" <;>
    simp [domainKeyFn, domainUnknownToEmpty, jsOrStr, h]

theorem statusKeyFn_emptyToUnknown (r : Project) :
    statusKeyFn (statusEmptyToUnknown r) = statusKeyFn r := by
  by_cases h : r.Status = "" <;> simp [statusKeyFn, statusEmptyToUnknown, jsOrStr, h]

theorem statusKeyFn_unknownToEmpty (r : Project) :
    statusKeyFn (statusUnknownToEmpty r) = statusKeyFn r := by
  by_cases h : r.Status = "Unknown" <;>
    simp [statusKeyFn, statusUnknownToEmpty, jsOrStr, h]

theorem amountValueFn_domainEmptyToUnknown (r : Project) :
    amountValueFn (domainEmptyToUnknown r) = amountValueFn r := by
  by_cases h : r.Domain = "" <;> simp [amountValueFn, domainEmptyToUnknown, h]

theorem amountValueFn_domainUnknownToEmpty (r : Project) :
    amountValueFn (domainUnknownToEmpty r) = amountValueFn r := by
  by_cases h : r.Domain = "Unknown" <;> simp [amountValueFn, domainUnknownToEmpty, h]

theorem statusCounts_map_invariant (f : Project → Project) (rows : List Project)
    (hk : ∀ r ∈ rows, jsOrStr (f r).Status "Unknown" = jsOrStr r.Status "Unknown") :
    statusCounts (rows.map f) = statusCounts rows := by
  unfold statusCounts
  rw [List.foldl_map]
  apply List.foldl_ext
  intro acc r hr
  rw [hk r hr]

/-- C10: aggregation cannot distinguish an empty grouping field from the
literal value "Unknown": replacing every empty domain (or status) by
"Unknown", or every "Unknown" by the empty string, leaves the three chart
aggregations and the status-breakdown summary unchanged. -/
theorem aggregation_unknown_empty_indistinguishable (rows : List Project) :
    byDomainAgg (rows.map domainEmptyToUnknown) = byDomainAgg rows ∧
    fundingByDomainAgg (rows.map domainEmptyToUnknown) = fundingByDomainAgg rows ∧
    byStatusAgg (rows.map statusEmptyToUnknown) = byStatusAgg rows ∧
    statusBreakdown (rows.map statusEmptyToUnknown) = statusBreakdown rows ∧
    byDomainAgg (rows.map domainUnknownToEmpty) = byDomainAgg rows ∧
    fundingByDomainAgg (rows.map domainUnknownToEmpty) = fundingByDomainAgg rows ∧
    byStatusAgg (rows.map statusUnknownToEmpty) = byStatusAgg rows ∧
    statusBreakdown (rows.map statusUnknownToEmpty) = statusBreakdown rows := by
  refine ⟨?_, ?_, ?_, ?_, ?_, ?_, ?_, ?_⟩
  · exact aggregateBy_map_invariant _ _ _ _
      (fun r _ => domainKeyFn_emptyToUnknown r) (fun r _ => rfl)
  · exact aggregateBy_map_invariant _ _ _ _
      (fun r _ => domainKeyFn_emptyToUnknown r)
      (fun r _ => by simp [aggValue, amountValueFn_domainEmptyToUnknown])
  · exact aggregateBy_map_invariant _ _ _ _
      (fun r _ => statusKeyFn_emptyToUnknown r) (fun r _ => rfl)
  · unfold statusBreakdown
    rw [statusCounts_map_invariant _ _ (fun r _ => statusKeyFn_emptyToUnknown r)]
  · exact aggregateBy_map_invariant _ _ _ _
      (fun r _ => domainKeyFn_unknownToEmpty r) (fun r _ => rfl)
  · exact aggregateBy_map_invariant _ _ _ _
      (fun r _ => domainKeyFn_unknownToEmpty r)
      (fun r _ => by simp [aggValue, amountValueFn_domainUnknownToEmpty])
  · exact aggregateBy_map_invariant _ _ _ _
      (fun r _ => statusKeyFn_unknownToEmpty r) (fun r _ => rfl)
  · unfold statusBreakdown
    rw [statusCounts_map_invariant _ _ (fun r _ => statusKeyFn_unknownToEmpty r)]

/-! ## C6 -/

theorem distinct_cond_iff (s : String) (acc : List String) :
    ((s != "" && !acc.contains s) = true) ↔ (s ≠ "" ∧ s ∉ acc) := by
  simp

theorem distinctNonEmpty_foldl_mem (l : List String) :
    ∀ (acc : List String) (x : String),
      x ∈ l.foldl
          (fun acc s => if s != "" && !acc.contains s then acc ++ [s] else acc) acc
        ↔ x ∈ acc ∨ (x ∈ l ∧ x ≠ "") := by
  induction l with
  | nil => intro acc x; simp
  | cons s t ih =>
    intro acc x
    rw [List.foldl_cons, ih]
    by_cases hs : (s != "" && !acc.contains s) = true
    · obtain ⟨hs1, hs2⟩ := (distinct_cond_iff s acc).mp hs
      rw [if_pos hs]
      simp only [List.mem_append, List.mem_singleton, List.mem_cons,
        List.not_mem_nil, or_false]
      constructor
      · rintro ((h | h) | ⟨h1, h2⟩)
        · exact Or.inl h
        · exact Or.inr ⟨Or.inl h, h ▸ hs1⟩
        · exact Or.inr ⟨Or.inr h1, h2⟩
      · rintro (h | ⟨h | h, h2⟩)
        · exact Or.inl (Or.inl h)
        · exact Or.inl (Or.inr h)
        · exact Or.inr ⟨h, h2⟩
    · have hs' : s = "" ∨ s ∈ acc := by
        rcases not_and_or.mp ((distinct_cond_iff s acc).not.mp hs) with h | h
        · exact Or.inl (not_not.mp h)
        · exact Or.inr (not_not.mp h)
      rw [if_neg hs]
      simp only [List.mem_cons]
      constructor
      · rintro (h | ⟨h1, h2⟩)
        · exact Or.inl h
        · exact Or.inr ⟨Or.inr h1, h2⟩
      · rintro (h | ⟨h | h1, h2⟩)
        · exact Or.inl h
        · rcases hs' with he | ha
          · exact absurd (h.trans he) h2
          · exact Or.inl (h ▸ ha)
        · exact Or.inr ⟨h1, h2⟩

theorem distinctNonEmpty_mem (l : List String) (x : String) :
    x ∈ distinctNonEmpty l ↔ x ∈ l ∧ x ≠ "" := by
  unfold distinctNonEmpty
  rw [distinctNonEmpty_foldl_mem]
  simp

theorem distinctNonEmpty_foldl_nodup (l : List String) :
    ∀ acc : List String, acc.Nodup →
      (l.foldl
          (fun acc s => if s != "" && !acc.contains s then acc ++ [s] else acc)
          acc).Nodup := by
  induction l with
  | nil => intro acc h; exact h
  | cons s t ih =>
    intro acc h
    rw [List.foldl_cons]
    apply ih
    by_cases hs : (s != "" && !acc.contains s) = true
    · obtain ⟨_, hs2⟩ := (distinct_cond_iff s acc).mp hs
      rw [if_pos hs, List.nodup_append]
      exact ⟨h, List.nodup_singleton s, by simpa using hs2⟩
    · rw [if_neg hs]; exact h

theorem distinctNonEmpty_nodup (l : List String) : (distinctNonEmpty l).Nodup :=
  distinctNonEmpty_foldl_nodup l [] List.nodup_nil

theorem fillSelectValues_props (l : List String) :
    (fillSelectValues (distinctNonEmpty l)).head? = some "" ∧
    List.Pairwise localeLe (fillSelectValues (distinctNonEmpty l)).tail ∧
    (fillSelectValues (distinctNonEmpty l)).tail.Nodup ∧
    ∀ s : String,
      s ∈ (fillSelectValues (distinctNonEmpty l)).tail ↔ s ∈ l ∧ s ≠ "" := by
  refine ⟨rfl, ?_, ?_, ?_⟩
  · exact List.sorted_insertionSort localeLe (distinctNonEmpty l)
  · exact (List.perm_insertionSort localeLe (distinctNonEmpty l)).nodup_iff.mpr
      (distinctNonEmpty_nodup l)
  · intro s
    rw [show (fillSelectValues (distinctNonEmpty l)).tail
        = List.insertionSort localeLe (distinctNonEmpty l) from rfl]
    rw [(List.perm_insertionSort localeLe (distinctNonEmpty l)).mem_iff]
    exact distinctNonEmpty_mem l s

/-- C6 counterexample: with domain values "a" and "B", the dropdown options
come out as All, "a", "B" — the order of the default-locale collation
(`localeCompare`), under which lowercase "a" precedes uppercase "B" —
whereas the case-sensitive ordinal (code-unit) order the claim states would
put "B" (code 66) before "a" (code 97). -/
theorem filterOptions_not_ordinal :
    domainOptionList [mkProj "a" "" "", mkProj "B" "" ""] = ["", "a", "B"] ∧
    "" :: List.insertionSort ordLe
        (domainValues [mkProj "a" "" "", mkProj "B" "" ""])
      = ["", "B", "a"] ∧
    domainOptionList [mkProj "a" "" "", mkProj "B" "" ""]
      ≠ "" :: List.insertionSort ordLe
          (domainValues [mkProj "a" "" "", mkProj "B" "" ""]) := by
  refine ⟨by decide, by decide, by decide⟩

/-- C6 amended: for each of the three filterable fields, the option list
starts with the "All" choice (value ""), followed by the distinct non-empty
values of that field — each value exactly once, excluding the empty string —
sorted by the locale-aware collation of `localeCompare` (modelled by the
default Unicode root collation: case-folded character codes first, lowercase
before uppercase on ties), not by ordinal code-unit comparison. -/
theorem filterOptions_locale_sorted_distinct (rows : List Project) :
    ((domainOptionList rows).head? = some "" ∧
      List.Pairwise localeLe (domainOptionList rows).tail ∧
      (domainOptionList rows).tail.Nodup ∧
      ∀ s : String, s ∈ (domainOptionList rows).tail
        ↔ s ∈ rows.map Project.Domain ∧ s ≠ "") ∧
    ((statusOptionList rows).head? = some "" ∧
      List.Pairwise localeLe (statusOptionList rows).tail ∧
      (statusOptionList rows).tail.Nodup ∧
      ∀ s : String, s ∈ (statusOptionList rows).tail
        ↔ s ∈ rows.map Project.Status ∧ s ≠ "") ∧
    ((facultyOptionList rows).head? = some "" ∧
      List.Pairwise localeLe (facultyOptionList rows).tail ∧
      (facultyOptionList rows).tail.Nodup ∧
      ∀ s : String, s ∈ (facultyOptionList rows).tail
        ↔ s ∈ rows.map Project.FacultyName ∧ s ≠ "") :=
  ⟨fillSelectValues_props (rows.map Project.Domain),
   fillSelectValues_props (rows.map Project.Status),
   fillSelectValues_props (rows.map Project.FacultyName)⟩

/-! ## C7 -/

theorem normalizeStringCell_some (v : Cell) :
    normalizeStringCell (some v)
      = if cellTruthy v then jsTrim (cellToString v) else "" := by
  unfold normalizeStringCell
  rw [show jsCellOr (some v) (.cstr "")
      = if cellTruthy v then v else Cell.cstr "" from rfl]
  by_cases h : cellTruthy v = true
  · rw [if_pos h, if_pos h]
  · rw [if_neg h, if_neg h]; rfl

theorem normalizeStringCell_treatment (c : Option Cell) :
    (c = none → normalizeStringCell c = "") ∧
    (∀ v : Cell, c = some v →
      normalizeStringCell c = if cellTruthy v then jsTrim (cellToString v) else "") := by
  constructor
  · intro h; rw [h]; rfl
  · intro v h; rw [h]; exact normalizeStringCell_some v

/-- C7 counterexample: a Domain cell holding the number 0 is present, and
its string representation is "0", but the normalized field is the empty
string, because `row["Domain"] || ""` replaces every falsy present value
(the number 0, like the empty string) by the default before the string
coercion. -/
theorem normalizeRow_falsy_cell_counterexample :
    (normalizeRow [("Domain", Cell.cnum 0)]).Domain = "" ∧
    jsTrim (cellToString (Cell.cnum 0)) = "0" ∧
    (normalizeRow [("Domain", Cell.cnum 0)]).Domain
      ≠ jsTrim (cellToString (Cell.cnum 0)) := by
  refine ⟨by decide, by decide, by decide⟩

/-- C7 amended: every normalized record has all seven fields defined with
their declared types (the record type makes them total); for each of the six
string columns, an absent cell yields the empty string, a present truthy
cell yields its string representation with leading/trailing whitespace
stripped, and a present falsy cell (the empty string, or the number 0)
yields the empty string as well; an absent amount cell yields the amount
0. -/
theorem normalizeRow_column_treatment (row : RawRow) :
    (∀ p ∈ stringColumns,
      (jsIndex row p.1 = none → p.2 (normalizeRow row) = "") ∧
      (∀ v : Cell, jsIndex row p.1 = some v →
        p.2 (normalizeRow row)
          = if cellTruthy v then jsTrim (cellToString v) else "")) ∧
    (jsIndex row "Amount(in lakhs)" = none →
      (normalizeRow row).Amount = JsNum.fin 0) := by
  constructor
  · intro p hp
    simp only [stringColumns, List.mem_cons, List.not_mem_nil, or_false] at hp
    rcases hp with h | h | h | h | h | h <;> subst h <;>
      exact normalizeStringCell_treatment _
  · intro h0
    rw [show (normalizeRow row).Amount
        = normalizeAmountCell (jsIndex row "Amount(in lakhs)") from rfl, h0]
    decide

/-! ## C8 -/

theorem fillSelectNewValue_distinct (current : String) (l : List String) :
    (fillSelectNewValue current (distinctNonEmpty l) = "" ∨
      fillSelectNewValue current (distinctNonEmpty l) ∈ l) ∧
    (current ∉ l → fillSelectNewValue current (distinctNonEmpty l) = "") := by
  unfold fillSelectNewValue
  by_cases h : (current != "" && (distinctNonEmpty l).contains current) = true
  · rw [if_pos h]
    have hmem : current ∈ l := by
      have h2 : ¬current = "" ∧ current ∈ distinctNonEmpty l := by simpa using h
      exact ((distinctNonEmpty_mem l current).mp h2.2).1
    exact ⟨Or.inr hmem, fun hn => absurd hmem hn⟩
  · rw [if_neg h]
    exact ⟨Or.inl rfl, fun _ => rfl⟩

/-- C8: after the option sets are rebuilt for a new record set, the
effective selection of each field is either the no-constraint value "" or an
actual field value of the new records; in particular a previous selection
that no longer occurs among the new values resets to no-constraint (the
select falls back to its first option, "All"), rather than remaining as a
stale value that would filter out every record. -/
theorem fillSelect_stale_selection_reset (cur : String) (rows : List Project) :
    ((fillSelectNewValue cur (domainValues rows) = "" ∨
        fillSelectNewValue cur (domainValues rows) ∈ rows.map Project.Domain) ∧
      (cur ∉ rows.map Project.Domain →
        fillSelectNewValue cur (domainValues rows) = "")) ∧
    ((fillSelectNewValue cur (statusValues rows) = "" ∨
        fillSelectNewValue cur (statusValues rows) ∈ rows.map Project.Status) ∧
      (cur ∉ rows.map Project.Status →
        fillSelectNewValue cur (statusValues rows) = "")) ∧
    ((fillSelectNewValue cur (facultyValues rows) = "" ∨
        fillSelectNewValue cur (facultyValues rows)
          ∈ rows.map Project.FacultyName) ∧
      (cur ∉ rows.map Project.FacultyName →
        fillSelectNewValue cur (facultyValues rows) = "")) :=
  ⟨fillSelectNewValue_distinct cur (rows.map Project.Domain),
   fillSelectNewValue_distinct cur (rows.map Project.Status),
   fillSelectNewValue_distinct cur (rows.map Project.FacultyName)⟩
